import Mathlib

/-!
# Verification of the `zip_parser` library (src/lib.rs)

Shallow embedding of the two ZIP parsing engines of the repository:

* the record codec (`Signature`, `LocalFileHeader`, `CentralFileHeader`,
  `CentralDirEnd` and their `from_bytes` / `TryFrom` decoders),
* the byte-source abstraction (`Read`/`Seek`), modelled by an in-memory
  cursor (`MemStream`) matching the `std::io` instances used by the crate,
* the directory-driven parser (`SeekingParser::new` / `Iterator::next`),
* the entry handle (`LocalFile` with its `read` / `read_exact`),
* the incremental push parser (`PassiveParser::feed_data`).

Conventions:
* machine integers are `Nat` (fields are decoded little-endian with explicit
  `% 256` digits); `i32` indices are `Int` (the `-1` of `UserCancel`);
* Rust panics (slice out of bounds, `unwrap` on `None`, integer underflow
  with overflow checks) are modelled explicitly: functions return `Option`
  or carry a `panicked` outcome;
* fallible reads return what the in-memory cursor yields, i.e. a short read
  returns the remaining bytes, matching `std::io::Cursor`/`File` behaviour.
-/

set_option maxHeartbeats 1000000

namespace ZipParser

/-! ## Little-endian byte codec -/

/-- Little-endian 16-bit serialization, two bytes `< 256`. -/
def le16 (v : Nat) : List Nat := [v % 256, v / 256 % 256]

/-- Little-endian 32-bit serialization, four bytes `< 256`. -/
def le32 (v : Nat) : List Nat :=
  [v % 256, v / 256 % 256, v / 65536 % 256, v / 16777216 % 256]

/-- Combine a little-endian digit list into a number
(`u16::from_le_bytes` / `u32::from_le_bytes`). -/
def readLe (l : List Nat) : Nat :=
  l.foldr (fun b acc => b + 256 * acc) 0

/-- Read `n` bytes little-endian at offset `off` of buffer `b`
(the semantic content of the `#[repr(packed)]` pointer casts in the source). -/
def readLeAt (b : List Nat) (off n : Nat) : Nat :=
  readLe ((b.drop off).take n)

/-! ## Error taxonomy (`ParsingError`) -/

/-- `ParsingError` from the source, one constructor per variant. -/
inductive PErr where
  | localFileNameTooLong (localFileIndex : Int) (filenameLen : Nat)
  | invalidLocalFileHeader
  | invalidCentralFileHeader
  | invalidCentralDirEnd
  | localFileHeaderNotRecved (localFileIndex : Int)
  | generic
  | invalidStream
  | streamEnding
  | invalidSignature
  | dataNotEnough
  deriving DecidableEq, Repr

/-! ## Signatures (`Signature` and its `TryFrom` impls) -/

/-- The `Signature` enum. -/
inductive Sig where
  | localFileHeader
  | centralFileHeader
  | centralDirEnd
  deriving DecidableEq, Repr

/-- `impl TryFrom<u32> for Signature`. -/
def sigOfU32 (value : Nat) : Except PErr Sig :=
  if value = 0x04034b50 then .ok .localFileHeader
  else if value = 0x02014b50 then .ok .centralFileHeader
  else if value = 0x06054b50 then .ok .centralDirEnd
  else .error .invalidSignature

/-- `impl TryFrom<&[u8]> for Signature`: fewer than 4 bytes is
`DataNotEnough`, otherwise decode the first four bytes little-endian and
dispatch through the `u32` conversion. -/
def trySignature (value : List Nat) : Except PErr Sig :=
  if value.length < 4 then .error .dataNotEnough
  else sigOfU32 (readLe (value.take 4))

/-! ## Compression methods (`CompressMethod` with `From<u16>`) -/

inductive CompressMethod where
  | uncompress | shrunk | reduced1 | reduced2 | reduced3 | reduced4
  | imploded | deflated | bzip2 | lzma | lz77z | zstd | mp3 | xz | jpeg
  | unknown
  deriving DecidableEq, Repr

/-- `impl From<u16> for CompressMethod`. -/
def compressMethodOfU16 (value : Nat) : CompressMethod :=
  if value = 0 then .uncompress
  else if value = 1 then .shrunk
  else if value = 2 then .reduced1
  else if value = 3 then .reduced2
  else if value = 4 then .reduced3
  else if value = 5 then .reduced4
  else if value = 6 then .imploded
  else if value = 8 then .deflated
  else if value = 12 then .bzip2
  else if value = 14 then .lzma
  else if value = 19 then .lz77z
  else if value = 93 then .zstd
  else if value = 94 then .mp3
  else if value = 95 then .xz
  else if value = 96 then .jpeg
  else .unknown

/-! ## Packed record layouts and their `from_bytes` decoders

The source interprets the raw buffer through `#[repr(packed)]` pointer
casts; semantically that reads each field little-endian at its byte offset.
`from_bytes` only checks the signature field. -/

/-- `LocalFileHeader` (30 bytes). -/
structure LocalFileHeaderS where
  versionNeededToExtract : Nat
  generalPurposeBitFlag : Nat
  compressionMethod : Nat
  lastModFileTime : Nat
  lastModFileDate : Nat
  crc32 : Nat
  compressedSize : Nat
  uncompressedSize : Nat
  fileNameLength : Nat
  extraFieldLength : Nat
  deriving DecidableEq, Repr

/-- `LocalFileHeader::len()`: fixed 30 bytes plus name plus extra field. -/
def LocalFileHeaderS.len (h : LocalFileHeaderS) : Nat :=
  30 + h.fileNameLength + h.extraFieldLength

/-- `LocalFileHeader::from_bytes`: succeeds iff the signature field matches. -/
def localFileHeaderFromBytes (b : List Nat) : Option LocalFileHeaderS :=
  if readLeAt b 0 4 = 0x04034b50 then
    some { versionNeededToExtract := readLeAt b 4 2
           generalPurposeBitFlag := readLeAt b 6 2
           compressionMethod := readLeAt b 8 2
           lastModFileTime := readLeAt b 10 2
           lastModFileDate := readLeAt b 12 2
           crc32 := readLeAt b 14 4
           compressedSize := readLeAt b 18 4
           uncompressedSize := readLeAt b 22 4
           fileNameLength := readLeAt b 26 2
           extraFieldLength := readLeAt b 28 2 }
  else none

/-- `CentralFileHeader` (46 bytes). -/
structure CentralFileHeaderS where
  versionMadeBy : Nat
  versionNeededToExtract : Nat
  generalPurposeBitFlag : Nat
  compressionMethod : Nat
  lastModFileTime : Nat
  lastModFileDate : Nat
  crc32 : Nat
  compressedSize : Nat
  uncompressedSize : Nat
  fileNameLength : Nat
  extraFieldLength : Nat
  fileCommentLength : Nat
  diskNumberStart : Nat
  internalFileAttributes : Nat
  externalFileAttributes : Nat
  relativeOffsetOfLocalHeader : Nat
  deriving DecidableEq, Repr

/-- `CentralFileHeader::len()`: 46 bytes plus name, extra field and comment. -/
def CentralFileHeaderS.len (h : CentralFileHeaderS) : Nat :=
  46 + h.fileNameLength + h.extraFieldLength + h.fileCommentLength

/-- `CentralFileHeader::from_bytes`. -/
def centralFileHeaderFromBytes (b : List Nat) : Option CentralFileHeaderS :=
  if readLeAt b 0 4 = 0x02014b50 then
    some { versionMadeBy := readLeAt b 4 2
           versionNeededToExtract := readLeAt b 6 2
           generalPurposeBitFlag := readLeAt b 8 2
           compressionMethod := readLeAt b 10 2
           lastModFileTime := readLeAt b 12 2
           lastModFileDate := readLeAt b 14 2
           crc32 := readLeAt b 16 4
           compressedSize := readLeAt b 20 4
           uncompressedSize := readLeAt b 24 4
           fileNameLength := readLeAt b 28 2
           extraFieldLength := readLeAt b 30 2
           fileCommentLength := readLeAt b 32 2
           diskNumberStart := readLeAt b 34 2
           internalFileAttributes := readLeAt b 36 2
           externalFileAttributes := readLeAt b 38 4
           relativeOffsetOfLocalHeader := readLeAt b 42 4 }
  else none

/-- `CentralDirEnd` (22 bytes). -/
structure CentralDirEndS where
  numberOfDisk : Nat
  numberOfStartCentralDirectoryDisk : Nat
  totalEntriesThisDisk : Nat
  totalEntriesAllDisk : Nat
  sizeOfTheCentralDirectory : Nat
  centralDirectoryOffset : Nat
  zipFileCommentLength : Nat
  deriving DecidableEq, Repr

/-- `CentralDirEnd::len()`. -/
def CentralDirEndS.len (h : CentralDirEndS) : Nat :=
  22 + h.zipFileCommentLength

/-- `CentralDirEnd::from_bytes`. -/
def centralDirEndFromBytes (b : List Nat) : Option CentralDirEndS :=
  if readLeAt b 0 4 = 0x06054b50 then
    some { numberOfDisk := readLeAt b 4 2
           numberOfStartCentralDirectoryDisk := readLeAt b 6 2
           totalEntriesThisDisk := readLeAt b 8 2
           totalEntriesAllDisk := readLeAt b 10 2
           sizeOfTheCentralDirectory := readLeAt b 12 4
           centralDirectoryOffset := readLeAt b 16 4
           zipFileCommentLength := readLeAt b 20 2 }
  else none

/-! ## `LocalFileInfo<N>`

`file_name_buffer: [u8; N]` is written left to right starting at index 0
(`file_name_index` always equals the number of bytes written so far, both
start at 0 on header parse and advance together), and only the prefix
`[..file_name_length]` is ever read back. We therefore represent the buffer
by the list of bytes written so far; the bound `N` is enforced at the write
sites, where Rust's slice indexing `[idx..idx+len]` on `[u8; N]` panics
whenever `idx + len > N`. -/

structure LocalFileInfoM where
  fileNameBuffer : List Nat := []
  fileNameLength : Nat := 0
  extraFieldLength : Nat := 0
  fileDataOffset : Nat := 0
  compressionMethod : CompressMethod := .uncompress
  compressedSize : Nat := 0
  uncompressedSize : Nat := 0
  deriving DecidableEq, Repr

/-- `LocalFileInfo::file_name()` reads `file_name_buffer[..file_name_length]`
(the UTF-8 decoding is irrelevant to the claims; we expose the bytes). -/
def LocalFileInfoM.fileNameBytes (i : LocalFileInfoM) : List Nat :=
  i.fileNameBuffer.take i.fileNameLength

/-! ## Push parser (`PassiveParser<N>`) -/

/-- `ParserEvent`. `i32` indices are `Int` so `UserCancel(-1, n)` is exact. -/
inductive PEvent where
  | localFileHeader (index : Int) (info : LocalFileInfoM)
  | localFileData (fileIndex : Int) (offset : Nat) (data : List Nat)
  | localFileEnd (index : Int)
  | parsingError (index : Int) (err : PErr)
  | userCancel (index : Int) (consumed : Nat)
  deriving DecidableEq, Repr

/-- `HeaderType`. -/
inductive HeaderType where
  | headerSignature | localFileHeader | centralFileHeader | centralDirEnd
  deriving DecidableEq, Repr

/-- `ParserState`. -/
inductive ParserState where
  | recvHeader (t : HeaderType) (headerLen : Nat)
  | recvCentralFileHeader
  | recvCentralDirEnd
  | recvLocalFileName
  | recvLocalFileExtraField
  | recvLocalFileData
  deriving DecidableEq, Repr

/-- `PassiveParser<N>` state (the `std`-only `zip_file_comment` sink is not
modelled: the crate core is `no_std` and no claim concerns it). -/
structure PParser where
  buffer : List Nat := []
  localfileInfo : Option LocalFileInfoM := none
  localfileIndex : Int := 0
  centralfileIndex : Int := 0
  fileNameLen : Nat := 0
  fileNameIndex : Nat := 0
  extraFieldLen : Nat := 0
  extraFieldIndex : Nat := 0
  fileDataLen : Nat := 0
  fileDataIndex : Nat := 0
  centralFileHeaderIndex : Nat := 0
  centralFileHeaderLen : Nat := 0
  centralDirEndIndex : Nat := 0
  centralDirEndLen : Nat := 0
  state : ParserState := .recvHeader .headerSignature 4
  deriving DecidableEq, Repr

/-- `PassiveParser::new()` / `Default`. -/
def pInit : PParser := {}

/-- `PassiveParser::append_bytes`: number of bytes actually queued, capped by
the buffer capacity `CENTRAL_FILE_HEADER_LEN = 46`. -/
def appendLen (bufLen dataLen : Nat) : Nat :=
  if dataLen + bufLen > 46 then 46 - bufLen else dataLen

/-- Result of one iteration of the `feed_data` loop: continue parsing,
break with `Err(processed)` (callback returned `false`), or a Rust panic.
`consumed` is the number of input bytes processed by this iteration. -/
inductive StepRes where
  | cont (evs : List PEvent) (p : PParser) (consumed : Nat)
  | cancel (evs : List PEvent) (p : PParser) (consumed : Nat)
  | panic (evs : List PEvent) (p : PParser) (consumed : Nat)
  deriving DecidableEq, Repr

/-- The tail of the `RecvLocalFileName` arm after the two diagnostic checks:
either finish the name (setting `file_name_length` and moving to the extra
field) or copy `min(file_name_len - file_name_index, unprocessed)` bytes
into `file_name_buffer[idx..idx+len]`.  The `unwrap()` panics when
`localfile_info` is `None`, and the slice write panics when
`idx + len > N`. -/
def nameCopy (N : Nat) (evs : List PEvent) (p : PParser) (rem : List Nat) : StepRes :=
  if p.fileNameIndex ≥ p.fileNameLen then
    match p.localfileInfo with
    | none => .panic evs p 0
    | some info =>
      .cont evs
        { p with
          localfileInfo := some ({ info with fileNameLength := p.fileNameLen })
          state := .recvLocalFileExtraField } 0
  else
    let len := min (p.fileNameLen - p.fileNameIndex) rem.length
    match p.localfileInfo with
    | none => .panic evs p 0
    | some info =>
      if p.fileNameIndex + len > N then .panic evs p 0
      else .cont evs
        { p with
          localfileInfo := some ({ info with fileNameBuffer := info.fileNameBuffer ++ rem.take len })
          fileNameIndex := p.fileNameIndex + len } len

/-- The `file_name_len > N` check of `RecvLocalFileName` (second diagnostic):
emits `LocalFileNameTooLong` and breaks with `Err` if the callback declines. -/
def nameCheck2 (N : Nat) (cb : List PEvent → PEvent → Bool) (past evs : List PEvent)
    (p : PParser) (rem : List Nat) : StepRes :=
  if p.fileNameLen > N then
    let ev := PEvent.parsingError p.localfileIndex
      (.localFileNameTooLong p.localfileIndex p.fileNameLen)
    if cb (past ++ evs) ev then nameCopy N (evs ++ [ev]) p rem
    else .cancel (evs ++ [ev]) p 0
  else nameCopy N evs p rem

/-- One iteration of the `loop` inside `PassiveParser::feed_data`, for a
non-empty unprocessed suffix `rem`.  `past` is the full event history handed
to the (history-dependent) callback. -/
def stepOnce (N : Nat) (cb : List PEvent → PEvent → Bool)
    (past : List PEvent) (p : PParser) (rem : List Nat) : StepRes :=
  match p.state with
  | .recvHeader ht hlen =>
    let want := min (hlen - p.buffer.length) rem.length
    let app := appendLen p.buffer.length want
    let buf : List Nat := p.buffer ++ rem.take app
    let p₁ : PParser := { p with buffer := buf }
    if buf.length < hlen then .cont [] p₁ app
    else
      match ht with
      | .headerSignature =>
        match trySignature buf with
        | .error e =>
          let ev := PEvent.parsingError p₁.localfileIndex e
          let p₂ := { p₁ with buffer := ([] : List Nat) }
          if cb past ev then .cont [ev] p₂ app else .cancel [ev] p₂ app
        | .ok sg =>
          let st := match sg with
            | .localFileHeader => ParserState.recvHeader .localFileHeader 30
            | .centralFileHeader => ParserState.recvHeader .centralFileHeader 46
            | .centralDirEnd => ParserState.recvHeader .centralDirEnd 22
          .cont [] { p₁ with state := st } app
      | .localFileHeader =>
        match localFileHeaderFromBytes buf with
        | some h =>
          .cont []
            { p₁ with
              state := .recvLocalFileName
              fileNameIndex := 0
              fileNameLen := h.fileNameLength
              extraFieldIndex := 0
              extraFieldLen := h.extraFieldLength
              fileDataIndex := 0
              fileDataLen := h.compressedSize
              localfileInfo := some ({ compressionMethod := compressMethodOfU16 h.compressionMethod,
                                       compressedSize := h.compressedSize,
                                       uncompressedSize := h.uncompressedSize })
              buffer := ([] : List Nat) } app
        | none =>
          let ev := PEvent.parsingError p₁.localfileIndex .invalidLocalFileHeader
          let p₂ := { p₁ with buffer := ([] : List Nat) }
          if cb past ev then .cont [ev] p₂ app else .cancel [ev] p₂ app
      | .centralFileHeader =>
        match centralFileHeaderFromBytes buf with
        | some h =>
          .cont []
            { p₁ with
              centralFileHeaderLen := h.len
              centralFileHeaderIndex := buf.length
              buffer := ([] : List Nat)
              state := .recvCentralFileHeader } app
        | none =>
          let ev := PEvent.parsingError p₁.localfileIndex .invalidCentralFileHeader
          let p₂ := { p₁ with buffer := ([] : List Nat), state := .recvCentralFileHeader }
          if cb past ev then .cont [ev] p₂ app else .cancel [ev] p₂ app
      | .centralDirEnd =>
        match centralDirEndFromBytes buf with
        | some h =>
          .cont []
            { p₁ with
              centralDirEndLen := h.len
              centralDirEndIndex := buf.length
              buffer := ([] : List Nat)
              state := .recvCentralDirEnd } app
        | none =>
          let ev := PEvent.parsingError p₁.localfileIndex .invalidCentralDirEnd
          let p₂ := { p₁ with buffer := ([] : List Nat), state := .recvCentralDirEnd }
          if cb past ev then .cont [ev] p₂ app else .cancel [ev] p₂ app
  | .recvLocalFileName =>
    if p.localfileInfo.isNone then
      let ev := PEvent.parsingError p.localfileIndex
        (.localFileHeaderNotRecved p.localfileIndex)
      if cb past ev then nameCheck2 N cb past [ev] p rem
      else .cancel [ev] p 0
    else nameCheck2 N cb past [] p rem
  | .recvLocalFileExtraField =>
    if p.extraFieldIndex ≥ p.extraFieldLen then
      match p.localfileInfo with
      | none => .panic [] p 0
      | some info =>
        let ev := PEvent.localFileHeader p.localfileIndex info
        let p' := { p with state := ParserState.recvLocalFileData }
        if cb past ev then .cont [ev] p' 0 else .cancel [ev] p' 0
    else
      let len := min (p.extraFieldLen - p.extraFieldIndex) rem.length
      .cont [] { p with extraFieldIndex := p.extraFieldIndex + len } len
  | .recvLocalFileData =>
    if p.fileDataIndex ≥ p.fileDataLen then
      let ev := PEvent.localFileEnd p.localfileIndex
      let p' :=
        { p with
          localfileIndex := p.localfileIndex + 1
          state := ParserState.recvHeader .headerSignature 4 }
      if cb past ev then .cont [ev] p' 0 else .cancel [ev] p' 0
    else
      let len := min (p.fileDataLen - p.fileDataIndex) rem.length
      let ev := PEvent.localFileData p.localfileIndex p.fileDataIndex (rem.take len)
      let p' := { p with fileDataIndex := p.fileDataIndex + len }
      if cb past ev then .cont [ev] p' len else .cancel [ev] p' len
  | .recvCentralFileHeader =>
    if p.centralFileHeaderIndex ≥ p.centralFileHeaderLen then
      .cont []
        { p with
          centralfileIndex := p.centralfileIndex + 1
          centralFileHeaderIndex := 0
          centralFileHeaderLen := 0
          state := ParserState.recvHeader .headerSignature 4 } 0
    else
      let len := min (p.centralFileHeaderLen - p.centralFileHeaderIndex) rem.length
      .cont [] { p with centralFileHeaderIndex := p.centralFileHeaderIndex + len } len
  | .recvCentralDirEnd =>
    if p.centralDirEndIndex ≥ p.centralDirEndLen then
      .cont []
        { p with
          centralDirEndIndex := 0
          centralDirEndLen := 0
          state := ParserState.recvHeader .headerSignature 4 } 0
    else
      let len := min (p.centralDirEndLen - p.centralDirEndIndex) rem.length
      .cont [] { p with centralDirEndIndex := p.centralDirEndIndex + len } len

/-- Outcome of one `feed_data` call.  `outOfFuel` is an artefact of the
fuelled encoding of the `loop`; `loopF_noFuelOut` below shows the fuel
budget `fuelFor` always suffices from well-formed parser states. -/
inductive FeedOutcome where
  | completed | cancelled | panicked | outOfFuel
  deriving DecidableEq, Repr

/-- Result of a `feed_data` call: the events delivered to the callback (in
order), the parser state left behind, the number of input bytes consumed,
and how the call ended. -/
structure FeedRes where
  events : List PEvent
  parser : PParser
  consumed : Nat
  outcome : FeedOutcome
  deriving DecidableEq, Repr

/-- The `loop` of `feed_data`, driven by fuel (each iteration uses one unit;
`fuelFor` below strictly dominates the iteration count). -/
def loopF (N : Nat) (cb : List PEvent → PEvent → Bool) :
    Nat → List PEvent → PParser → List Nat → FeedRes
  | 0, _, p, _ => ⟨[], p, 0, .outOfFuel⟩
  | fuel+1, past, p, rem =>
    if rem.isEmpty then ⟨[], p, 0, .completed⟩
    else
      match stepOnce N cb past p rem with
      | .cont evs p' k =>
        let r := loopF N cb fuel (past ++ evs) p' (rem.drop k)
        ⟨evs ++ r.events, r.parser, k + r.consumed, r.outcome⟩
      | .cancel evs p' k => ⟨evs, p', k, .cancelled⟩
      | .panic evs p' k => ⟨evs, p', k, .panicked⟩

/-- Fuel budget for a chunk (a crude upper bound on loop iterations). -/
def fuelFor (d : List Nat) : Nat := 400 * d.length + 400

/-- `PassiveParser::feed_data`: run the loop and, when the callback broke it
with `Err(n)`, report `UserCancel(-1, n)` as a final event. -/
def feedData (N : Nat) (p : PParser) (d : List Nat)
    (cb : List PEvent → PEvent → Bool) (past : List PEvent) : FeedRes :=
  let r := loopF N cb (fuelFor d) past p d
  match r.outcome with
  | .cancelled => { r with events := r.events ++ [.userCancel (-1) r.consumed] }
  | _ => r

/-- The always-`true` callback. -/
def cbT : List PEvent → PEvent → Bool := fun _ _ => true

/-- `feed_data` over a list of chunks in sequence (same callback, history
accumulating across calls), with the always-true callback. -/
def feedChunks (N : Nat) (p : PParser) : List (List Nat) → FeedRes
  | [] => ⟨[], p, 0, .completed⟩
  | d :: ds =>
    let r := feedData N p d cbT []
    match r.outcome with
    | .completed =>
      let r' := feedChunks N r.parser ds
      ⟨r.events ++ r'.events, r'.parser, r.consumed + r'.consumed, r'.outcome⟩
    | _ => r

/-! ## Byte source: in-memory cursor (`Read + Seek`)

The crate's blanket impls give any `std::io::Read + Seek` value the crate's
`Read`/`Seek` traits.  We model the canonical such source, an in-memory
cursor over the archive bytes: `read` returns `min(buf.len(), remaining)`
bytes from the current position, `seek(Start(x))` moves the position (also
past the end, as `io::Seek` allows), `stream_len` is the total length. -/

structure MemStream where
  data : List Nat
  pos : Nat
  deriving DecidableEq, Repr

/-- `Read::read` into a buffer of length `len`: the bytes read and the
advanced stream. -/
def msRead (s : MemStream) (len : Nat) : List Nat × MemStream :=
  let out := (s.data.drop s.pos).take len
  (out, { s with pos := s.pos + out.length })

/-- `Seek::seek(SeekFrom::Start(x))`. -/
def msSeekStart (s : MemStream) (x : Nat) : MemStream := { s with pos := x }

/-- `Seek::rewind()`. -/
def msRewind (s : MemStream) : MemStream := { s with pos := 0 }

/-- `Read::read_exact` (the trait's default impl) on the cursor: it loops
single `read`s until the buffer is full.  On the cursor the first read
already returns everything available, so when fewer than `len` bytes remain
every further `read` returns `Ok(0)` and the loop never terminates — that
divergence is modelled as `none`.  On success the default impl returns
`Ok(0)`, not the number of bytes read. -/
def msReadExact (s : MemStream) (len : Nat) : Option (List Nat × MemStream × Nat) :=
  if len ≤ s.data.length - s.pos then
    some ((s.data.drop s.pos).take len, { s with pos := s.pos + len }, 0)
  else none

/-! ## `LocalFile` (the entry handle) and its read operations -/

/-- `LocalFile<S, N>`: parsed info plus `(stream, stream_origin,
stream_position)`.  The raw `*mut S` back-pointer is modelled by passing the
(unique) stream alongside; `hasStream` is `false` exactly when the pointer
is null (`LocalFile::default()`). -/
structure LocalFileM where
  info : LocalFileInfoM
  hasStream : Bool
  streamOrigin : Nat
  streamPosition : Nat
  deriving DecidableEq, Repr

/-- `LocalFile::read`: seek the stream to `stream_position`, perform a
single read, advance `stream_position` by the bytes read. -/
def localFileRead (f : LocalFileM) (s : MemStream) (bufLen : Nat) :
    Except PErr (List Nat × LocalFileM × MemStream) :=
  if f.hasStream = false then .error .invalidStream
  else
    let s₁ := msSeekStart s f.streamPosition
    let (out, s₂) := msRead s₁ bufLen
    .ok (out, { f with streamPosition := f.streamPosition + out.length }, s₂)

/-- `LocalFile::read_exact`: seek to `stream_position`, call the stream's
`read_exact`, and advance `stream_position` by its *return value* — which
the default `Read::read_exact` fixes at `0`.  `none` models the divergence
of the default impl at end of stream. -/
def localFileReadExact (f : LocalFileM) (s : MemStream) (bufLen : Nat) :
    Option (Except PErr (List Nat × LocalFileM × MemStream)) :=
  if f.hasStream = false then some (.error .invalidStream)
  else
    let s₁ := msSeekStart s f.streamPosition
    match msReadExact s₁ bufLen with
    | none => none
    | some (out, s₂, ret) =>
      some (.ok (out, { f with streamPosition := f.streamPosition + ret }, s₂))

/-! ## Directory-driven parser (`SeekingParser`) -/

structure SeekingP where
  numberOfFiles : Option Nat
  centralDirectoryOffset : Nat
  nextEntryOffset : Nat
  deriving DecidableEq, Repr

/-- `SeekingParser::new`.  `stream_len()` on the cursor is always `Some`, so
the code computes `stream_len - READ_LEN` in `u64`; for streams shorter
than 22 bytes that subtraction underflows, which is a panic under Rust's
overflow checks — modelled as `none`.  Otherwise it reads the last 22
bytes, and on an EOCD signature stores the central directory offset and
`number_of_files = Some(total_entries_this_disk)`. -/
def seekingParserNew (s : MemStream) : Option (SeekingP × MemStream) :=
  let streamLen := s.data.length
  if streamLen < 22 then none
  else
    let s₁ := msSeekStart s (streamLen - 22)
    let (buf, s₂) := msRead s₁ 22
    if buf.length = 22 then
      match trySignature buf with
      | .ok .centralDirEnd =>
        match centralDirEndFromBytes buf with
        | none => none
        | some cde =>
          let s₃ := msSeekStart s₂ cde.centralDirectoryOffset
          some ({ numberOfFiles := some cde.totalEntriesThisDisk
                  centralDirectoryOffset := cde.centralDirectoryOffset
                  nextEntryOffset := 0 }, s₃)
      | _ =>
        some ({ numberOfFiles := none, centralDirectoryOffset := 0,
                nextEntryOffset := 0 }, msRewind s₂)
    else
      some ({ numberOfFiles := none, centralDirectoryOffset := 0,
              nextEntryOffset := 0 }, msRewind s₂)

/-- Result of `SeekingParser::next`: yielded entry, end of iteration, or a
Rust panic (name longer than the `N`-byte buffer). -/
inductive NextRes where
  | panicN
  | noneN
  | someN (f : LocalFileM) (sp : SeekingP) (s : MemStream)
  deriving DecidableEq, Repr

/-- `Iterator::next` for `SeekingParser<S, N>`: seek to
`central_directory_offset + next_entry_offset`, read and decode a 46-byte
central header, read the name into the `N`-byte buffer
(`file_name_buffer[..file_name_length]` panics when the declared length
exceeds `N`), advance `next_entry_offset` by the full central record
length, then read the 30-byte local header at
`relative_offset_of_local_header` and position the entry at
`relative_offset + local_header.len()`. -/
def seekingNext (N : Nat) (sp : SeekingP) (s : MemStream) : NextRes :=
  let s₁ := msSeekStart s (sp.centralDirectoryOffset + sp.nextEntryOffset)
  let (buf, s₂) := msRead s₁ 46
  if buf.length = 46 then
    match centralFileHeaderFromBytes buf with
    | some cfh =>
      let f₀ : LocalFileM :=
        { info := { compressionMethod := compressMethodOfU16 cfh.compressionMethod
                    compressedSize := cfh.compressedSize
                    uncompressedSize := cfh.uncompressedSize }
          hasStream := true
          streamOrigin := s₂.pos
          streamPosition := s₂.pos }
      if cfh.fileNameLength > N then .panicN
      else
        let (nameBytes, s₃) := msRead s₂ cfh.fileNameLength
        let f₁ :=
          { f₀ with info :=
            { f₀.info with fileNameBuffer := nameBytes, fileNameLength := nameBytes.length } }
        let sp₁ := { sp with nextEntryOffset := sp.nextEntryOffset + cfh.len }
        let s₄ := msSeekStart s₃ cfh.relativeOffsetOfLocalHeader
        let (lbuf, s₅) := msRead s₄ 30
        if lbuf.length = 30 then
          match localFileHeaderFromBytes lbuf with
          | some lfh =>
            let off := cfh.relativeOffsetOfLocalHeader + lfh.len
            .someN
              { f₁ with
                info := { f₁.info with fileDataOffset := off }
                streamOrigin := off
                streamPosition := off } sp₁ s₅
          | none => .noneN
        else .noneN
    | none => .noneN
  else .noneN

/-- Iterate `seekingNext` up to `fuel` times, counting yielded entries. -/
def seekingCount (N : Nat) : Nat → SeekingP → MemStream → Nat
  | 0, _, _ => 0
  | fuel+1, sp, s =>
    match seekingNext N sp s with
    | .someN _ sp' s' => 1 + seekingCount N fuel sp' s'
    | _ => 0

/-! ## Valid archives

A valid archive is the serialization of a list of entries: the local
records (header, name, extra field, payload) in order, then the central
directory (one 46-byte record plus name/extra/comment per entry, with
correct local-header offsets), then a 22-byte EOCD with matching counts,
offsets and an empty archive comment.  This follows the wire format of
spec §3/§6. -/

structure ZEntry where
  name : List Nat
  extra : List Nat := []
  payload : List Nat := []
  comment : List Nat := []
  versionNeeded : Nat := 20
  flags : Nat := 0
  method : Nat := 0
  time : Nat := 0
  date : Nat := 0
  crc : Nat := 0
  uncompressedSize : Nat := 0
  versionMadeBy : Nat := 20
  diskStart : Nat := 0
  internalAttr : Nat := 0
  externalAttr : Nat := 0
  deriving DecidableEq, Repr

/-- The 30-byte local file header of an entry (`compressed_size` is the
actual payload length). -/
def ZEntry.localHeader30 (e : ZEntry) : List Nat :=
  le32 0x04034b50 ++ le16 e.versionNeeded ++ le16 e.flags ++ le16 e.method ++
  le16 e.time ++ le16 e.date ++ le32 e.crc ++ le32 e.payload.length ++
  le32 e.uncompressedSize ++ le16 e.name.length ++ le16 e.extra.length

/-- The local record of an entry: header, name, extra field, payload. -/
def ZEntry.localBytes (e : ZEntry) : List Nat :=
  e.localHeader30 ++ e.name ++ e.extra ++ e.payload

/-- Length of the full local record including payload. -/
def ZEntry.localLen (e : ZEntry) : Nat :=
  30 + e.name.length + e.extra.length + e.payload.length

/-- The 46-byte central file header of an entry, given the offset of its
local header. -/
def ZEntry.centralHeader46 (e : ZEntry) (relOff : Nat) : List Nat :=
  le32 0x02014b50 ++ le16 e.versionMadeBy ++ le16 e.versionNeeded ++
  le16 e.flags ++ le16 e.method ++ le16 e.time ++ le16 e.date ++
  le32 e.crc ++ le32 e.payload.length ++ le32 e.uncompressedSize ++
  le16 e.name.length ++ le16 e.extra.length ++ le16 e.comment.length ++
  le16 e.diskStart ++ le16 e.internalAttr ++ le32 e.externalAttr ++
  le32 relOff

/-- The central directory record of an entry. -/
def ZEntry.centralBytes (e : ZEntry) (relOff : Nat) : List Nat :=
  e.centralHeader46 relOff ++ e.name ++ e.extra ++ e.comment

/-- Length of the central record. -/
def ZEntry.centralLen (e : ZEntry) : Nat :=
  46 + e.name.length + e.extra.length + e.comment.length

/-- EOCD record with empty archive comment. -/
def eocdBytes (thisDisk allDisk cdSize cdOff : Nat) : List Nat :=
  le32 0x06054b50 ++ le16 0 ++ le16 0 ++ le16 thisDisk ++ le16 allDisk ++
  le32 cdSize ++ le32 cdOff ++ le16 0

/-- The local-record section. -/
def localSection (entries : List ZEntry) : List Nat :=
  (entries.map ZEntry.localBytes).flatten

/-- The central directory, threading the local-header offsets. -/
def centralSectionFrom : List ZEntry → Nat → List Nat
  | [], _ => []
  | e :: es, off => e.centralBytes off ++ centralSectionFrom es (off + e.localLen)

/-- Serialization of a whole archive. -/
def archiveBytes (entries : List ZEntry) : List Nat :=
  let ls := localSection entries
  let cs := centralSectionFrom entries 0
  ls ++ cs ++ eocdBytes entries.length entries.length cs.length ls.length

/-- Wellformedness of one entry relative to the name bound `N`: the name
fits the parser's buffer and every variable-length field fits its 16/32-bit
length field. -/
def ZEntry.WFe (N : Nat) (e : ZEntry) : Prop :=
  e.name.length ≤ N ∧ e.name.length < 65536 ∧ e.extra.length < 65536 ∧
  e.comment.length < 65536 ∧ e.payload.length < 4294967296 ∧
  e.versionNeeded < 65536 ∧ e.flags < 65536 ∧ e.method < 65536 ∧
  e.time < 65536 ∧ e.date < 65536 ∧ e.crc < 4294967296 ∧
  e.uncompressedSize < 4294967296 ∧ e.versionMadeBy < 65536 ∧
  e.diskStart < 65536 ∧ e.internalAttr < 65536 ∧
  e.externalAttr < 4294967296

instance (N : Nat) (e : ZEntry) : Decidable (e.WFe N) := by
  unfold ZEntry.WFe; infer_instance

/-- Wellformedness of an archive: every entry is wellformed, the entry
count fits the 16-bit EOCD fields, and the section sizes fit their 32-bit
EOCD fields. -/
def archWF (N : Nat) (entries : List ZEntry) : Prop :=
  (∀ e ∈ entries, e.WFe N) ∧ entries.length < 65536 ∧
  (localSection entries).length < 4294967296 ∧
  (centralSectionFrom entries 0).length < 4294967296

instance (N : Nat) (entries : List ZEntry) : Decidable (archWF N entries) := by
  unfold archWF; infer_instance

/-- The decoded form of an entry's local header. -/
def ZEntry.lfh (e : ZEntry) : LocalFileHeaderS :=
  { versionNeededToExtract := e.versionNeeded, generalPurposeBitFlag := e.flags
    compressionMethod := e.method, lastModFileTime := e.time
    lastModFileDate := e.date, crc32 := e.crc
    compressedSize := e.payload.length, uncompressedSize := e.uncompressedSize
    fileNameLength := e.name.length, extraFieldLength := e.extra.length }

/-- The decoded form of an entry's central header. -/
def ZEntry.cfh (e : ZEntry) (relOff : Nat) : CentralFileHeaderS :=
  { versionMadeBy := e.versionMadeBy, versionNeededToExtract := e.versionNeeded
    generalPurposeBitFlag := e.flags, compressionMethod := e.method
    lastModFileTime := e.time, lastModFileDate := e.date, crc32 := e.crc
    compressedSize := e.payload.length, uncompressedSize := e.uncompressedSize
    fileNameLength := e.name.length, extraFieldLength := e.extra.length
    fileCommentLength := e.comment.length, diskNumberStart := e.diskStart
    internalFileAttributes := e.internalAttr
    externalFileAttributes := e.externalAttr
    relativeOffsetOfLocalHeader := relOff }

/-- The `LocalFileInfo` the push parser builds right after decoding an
entry's local header (name not yet read). -/
def ZEntry.info0 (e : ZEntry) : LocalFileInfoM :=
  { compressionMethod := compressMethodOfU16 e.method
    compressedSize := e.payload.length
    uncompressedSize := e.uncompressedSize }

/-- The `LocalFileInfo` carried by the `LocalFileHeader` event of an entry
(name read, `file_name_length` set). -/
def ZEntry.info (e : ZEntry) : LocalFileInfoM :=
  { fileNameBuffer := e.name, fileNameLength := e.name.length
    compressionMethod := compressMethodOfU16 e.method
    compressedSize := e.payload.length
    uncompressedSize := e.uncompressedSize }

/-- The push-parser events of one entry parsed in a single chunk. -/
def entryEvents (i : Int) (e : ZEntry) : List PEvent :=
  [.localFileHeader i e.info] ++
  (if e.payload = [] then [] else [.localFileData i 0 e.payload]) ++
  [.localFileEnd i]

/-- The canonical events of a whole archive, entry indices from `i` up. -/
def canonFrom (i : Int) : List ZEntry → List PEvent
  | [] => []
  | e :: es => entryEvents i e ++ canonFrom (i + 1) es

/-- The canonical events of a whole archive parsed from a fresh parser. -/
def canonEvents (entries : List ZEntry) : List PEvent := canonFrom 0 entries

/-- The parser state after the feed loop has fully processed one entry's
local record (and seen the first byte of the following record without
consuming it). -/
def afterEntry (p : PParser) (e : ZEntry) : PParser :=
  { p with
    buffer := []
    state := .recvHeader .headerSignature 4
    localfileIndex := p.localfileIndex + 1
    localfileInfo := some e.info
    fileNameLen := e.name.length
    fileNameIndex := e.name.length
    extraFieldLen := e.extra.length
    extraFieldIndex := e.extra.length
    fileDataLen := e.payload.length
    fileDataIndex := e.payload.length }

/-- The parser state after the feed loop has fully skipped one central
directory record. -/
def afterCentral (p : PParser) : PParser :=
  { p with
    buffer := []
    state := .recvHeader .headerSignature 4
    centralfileIndex := p.centralfileIndex + 1
    centralFileHeaderIndex := 0
    centralFileHeaderLen := 0 }

/-- The parser state after the feed loop has consumed a 22-byte EOCD with
empty comment (nothing follows, so the comment-skip state is left with
`index = len = 22`). -/
def afterEocd (p : PParser) : PParser :=
  { p with
    buffer := []
    state := .recvCentralDirEnd
    centralDirEndIndex := 22
    centralDirEndLen := 22 }

/-! ## Concrete fixtures used by the per-claim theorems -/

/-- A single stored entry `"hi"` with payload `"hello"`. -/
def helloEntry : ZEntry := { name := [104, 105], payload := [104, 101, 108, 108, 111] }

/-- The serialized one-entry archive for `helloEntry`. -/
def helloArchive : List Nat := archiveBytes [helloEntry]

/-- The run exercising `LocalFile::read_exact` twice (2 bytes each) on the
entry yielded by the directory-driven parser over `helloArchive`: returns
the two byte vectors observed by the caller. -/
def readExactTwiceRun : List Nat × List Nat :=
  match seekingParserNew { data := helloArchive, pos := 0 } with
  | some (sp, s) =>
    match seekingNext 128 sp s with
    | .someN f _ s' =>
      match localFileReadExact f s' 2 with
      | some (.ok (out1, f1, s1)) =>
        match localFileReadExact f1 s1 2 with
        | some (.ok (out2, _, _)) => (out1, out2)
        | _ => ([], [])
      | _ => ([], [])
    | _ => ([], [])
  | none => ([], [])

/-- Same run but with `LocalFile::read` instead of `read_exact`. -/
def readTwiceRun : List Nat × List Nat :=
  match seekingParserNew { data := helloArchive, pos := 0 } with
  | some (sp, s) =>
    match seekingNext 128 sp s with
    | .someN f _ s' =>
      match localFileRead f s' 2 with
      | .ok (out1, f1, s1) =>
        match localFileRead f1 s1 2 with
        | .ok (out2, _, _) => (out1, out2)
        | _ => ([], [])
      | _ => ([], [])
    | _ => ([], [])
  | none => ([], [])

/-- A 30-byte local header declaring `file_name_length = 5`,
`compressed_size = 3` (for the `N = 2` name-too-long scenario). -/
def longNameHeader : List Nat :=
  le32 0x04034b50 ++ le16 20 ++ le16 0 ++ le16 0 ++ le16 0 ++ le16 0 ++
  le32 0 ++ le32 3 ++ le32 3 ++ le16 5 ++ le16 0

/-! ## Event atoms

Two event streams of the push parser describe the same parse when they
differ only in how the payload is cut into `LocalFileData` slices (the
slices mirror the caller's chunks).  `explode` maps an event stream to its
atoms: data events become one atom per payload byte, carrying the entry
index and the offset, every other event is a single atom.  Equality of
atom streams is exactly "same event types, same indices, same payload
concatenation at the same offsets". -/

inductive EvAtom where
  | header (i : Int) (info : LocalFileInfoM)
  | dataByte (i : Int) (off : Nat) (b : Nat)
  | endA (i : Int)
  | errA (i : Int) (e : PErr)
  | cancelA (i : Int) (n : Nat)
  deriving DecidableEq, Repr

def explodeEv : PEvent → List EvAtom
  | .localFileHeader i info => [.header i info]
  | .localFileData i off d => (List.range d.length).map fun j => .dataByte i (off + j) d[j]!
  | .localFileEnd i => [.endA i]
  | .parsingError i e => [.errA i e]
  | .userCancel i n => [.cancelA i n]

def explode (evs : List PEvent) : List EvAtom := evs.flatMap explodeEv

/-- Events whose emission count depends on the chunking: the two
diagnostics of the `RecvLocalFileName` state are re-checked every loop
iteration, so they repeat once per chunk boundary inside the name. -/
def isBadEv : PEvent → Bool
  | .parsingError _ (.localFileNameTooLong _ _) => true
  | .parsingError _ (.localFileHeaderNotRecved _) => true
  | _ => false

/-- An event stream with no name-state diagnostic events. -/
def BadFree (evs : List PEvent) : Prop := ∀ ev ∈ evs, isBadEv ev = false

/-! ## Parser-state invariant and termination measure for the feed loop -/

/-- States reachable by `feed_data`: while accumulating a fixed header the
buffer is strictly below the needed length, which is the fixed record size
of the header kind (4/30/46/22); in every other state the buffer has just
been cleared. -/
def InvP (p : PParser) : Prop :=
  match p.state with
  | .recvHeader ht hlen =>
    p.buffer.length < hlen ∧ hlen ≤ 46 ∧
    (match ht with
     | .headerSignature => hlen = 4
     | .localFileHeader => hlen = 30
     | .centralFileHeader => hlen = 46
     | .centralDirEnd => hlen = 22)
  | _ => p.buffer = []

/-- Rank of a state among the zero-byte transitions of the loop. -/
def rankS : ParserState → Nat
  | .recvLocalFileName => 5
  | .recvLocalFileExtraField => 4
  | .recvLocalFileData => 3
  | .recvCentralFileHeader => 3
  | .recvCentralDirEnd => 3
  | .recvHeader .headerSignature _ => 2
  | .recvHeader _ _ => 1

/-- Strictly decreasing measure of one loop iteration. -/
def muP (p : PParser) (rem : List Nat) : Nat :=
  400 * rem.length + 8 * p.buffer.length + rankS p.state

/-- Bytes consumed by one loop iteration. -/
def StepRes.kConsumed : StepRes → Nat
  | .cont _ _ k => k
  | .cancel _ _ k => k
  | .panic _ _ k => k

/-- Parser left by one loop iteration. -/
def StepRes.toParser : StepRes → PParser
  | .cont _ p _ => p
  | .cancel _ p _ => p
  | .panic _ p _ => p

/-- Events emitted by one loop iteration. -/
def StepRes.evs : StepRes → List PEvent
  | .cont e _ _ => e
  | .cancel e _ _ => e
  | .panic e _ _ => e

/-- Big-step segment of the feed loop under the always-true callback:
from parser `p` on input `rem`, some number of iterations emit exactly
`evs`, consume the first `k` bytes and leave parser `p'`, after which the
loop continues on `rem.drop k` (witnessed fuel-uniformly: some fuel
advance `C` realizes the segment for every continuation fuel `f`). -/
def StepsTo (N : Nat) (p : PParser) (rem : List Nat)
    (evs : List PEvent) (p' : PParser) (k : Nat) : Prop :=
  k ≤ rem.length ∧
  ∃ C, ∀ f past, loopF N cbT (f + C) past p rem =
    (let r := loopF N cbT f past p' (rem.drop k)
     ⟨evs ++ r.events, r.parser, k + r.consumed, r.outcome⟩)

end ZipParser

open ZipParser

/-! ## Codec lemmas -/

theorem le16_length (v : Nat) : (le16 v).length = 2 := rfl

theorem le32_length (v : Nat) : (le32 v).length = 4 := rfl

theorem readLe_le16 (v : Nat) (h : v < 65536) : readLe (le16 v) = v := by
  simp only [le16, readLe, List.foldr]
  omega

theorem readLe_le32 (v : Nat) (h : v < 4294967296) : readLe (le32 v) = v := by
  simp only [le32, readLe, List.foldr]
  omega

/-! ## Basic loop equations -/

theorem loopF_zero (N : Nat) (cb : List PEvent → PEvent → Bool)
    (past : List PEvent) (p : PParser) (rem : List Nat) :
    loopF N cb 0 past p rem = ⟨[], p, 0, .outOfFuel⟩ := rfl

theorem loopF_succ (N : Nat) (cb : List PEvent → PEvent → Bool) (f : Nat)
    (past : List PEvent) (p : PParser) (rem : List Nat) :
    loopF N cb (f + 1) past p rem =
      (if rem.isEmpty then ⟨[], p, 0, .completed⟩
       else
         match stepOnce N cb past p rem with
         | .cont evs p' k =>
           let r := loopF N cb f (past ++ evs) p' (rem.drop k)
           ⟨evs ++ r.events, r.parser, k + r.consumed, r.outcome⟩
         | .cancel evs p' k => ⟨evs, p', k, .cancelled⟩
         | .panic evs p' k => ⟨evs, p', k, .panicked⟩) := rfl

theorem stepOnce_cbT_past (N : Nat) (past past' : List PEvent)
    (p : PParser) (rem : List Nat) :
    stepOnce N cbT past p rem = stepOnce N cbT past' p rem := rfl

theorem loopF_cbT_past (N : Nat) (f : Nat) (p : PParser) (rem : List Nat)
    (past past' : List PEvent) :
    loopF N cbT f past p rem = loopF N cbT f past' p rem := by
  induction f generalizing p rem past past' with
  | zero => rfl
  | succ f ih =>
    rw [loopF_succ, loopF_succ]
    by_cases h : rem.isEmpty
    · simp [h]
    · simp only [h, if_false]
      rw [stepOnce_cbT_past N past past']
      cases stepOnce N cbT past' p rem with
      | cont evs p' k => simp only []; rw [ih]
      | cancel evs p' k => rfl
      | panic evs p' k => rfl

theorem appendLen_eq_min (b d : Nat) : appendLen b d = min d (46 - b) := by
  unfold appendLen; split <;> omega

theorem stepOnce_consumed_le (N : Nat) (cb : List PEvent → PEvent → Bool)
    (past : List PEvent) (p : PParser) (rem : List Nat) :
    (stepOnce N cb past p rem).kConsumed ≤ rem.length := by
  unfold stepOnce nameCheck2 nameCopy
  cases hst : p.state <;> simp only [] <;>
    (repeat' split) <;>
    simp_all [StepRes.kConsumed, appendLen_eq_min]

theorem stepOnce_inv (N : Nat) (cb : List PEvent → PEvent → Bool)
    (past : List PEvent) (p : PParser) (rem : List Nat)
    (hp : InvP p) :
    InvP (stepOnce N cb past p rem).toParser := by
  unfold stepOnce nameCheck2 nameCopy
  cases hst : p.state <;> simp only [] <;>
    (repeat' split) <;>
    simp_all [StepRes.toParser, InvP, appendLen_eq_min] <;>
    omega

theorem stepOnce_mu_lt (N : Nat) (cb : List PEvent → PEvent → Bool)
    (past : List PEvent) (p : PParser) (rem : List Nat)
    (hp : InvP p) (hr : rem ≠ []) (evs : List PEvent) (p' : PParser) (k : Nat)
    (hs : stepOnce N cb past p rem = .cont evs p' k) :
    muP p' (rem.drop k) < muP p rem := by
  have hrl : 1 ≤ rem.length := by
    cases rem with
    | nil => exact absurd rfl hr
    | cons a l => simp
  unfold stepOnce nameCheck2 nameCopy at hs
  revert hs
  cases hst : p.state <;> simp only [] <;>
    (repeat' split) <;>
    (intro hs) <;>
    (try cases hs) <;>
    simp_all [muP, rankS, InvP, appendLen_eq_min] <;>
    omega

/-- With enough fuel (`muP` plus one) the loop never reports `outOfFuel`. -/
theorem loopF_noFuelOut (N : Nat) (cb : List PEvent → PEvent → Bool) :
    ∀ (fuel : Nat) (past : List PEvent) (p : PParser) (rem : List Nat),
      InvP p → muP p rem < fuel →
      (loopF N cb fuel past p rem).outcome ≠ .outOfFuel := by
  intro fuel
  induction fuel with
  | zero => intro past p rem _ h; omega
  | succ f ih =>
    intro past p rem hp hmu
    rw [loopF_succ]
    by_cases hre : rem.isEmpty
    · simp [hre]
    · simp only [hre, if_false]
      have hrne : rem ≠ [] := by
        cases rem with
        | nil => simp at hre
        | cons a l => simp
      cases hs : stepOnce N cb past p rem with
      | cont evs p' k =>
        simp only []
        have h1 : InvP p' := by
          have := stepOnce_inv N cb past p rem hp
          rw [hs] at this
          exact this
        have h2 : muP p' (rem.drop k) < muP p rem :=
          stepOnce_mu_lt N cb past p rem hp hrne evs p' k hs
        exact ih (past ++ evs) p' (rem.drop k) h1 (by omega)
      | cancel evs p' k => simp
      | panic evs p' k => simp

/-- Fuel monotonicity: once the loop finishes within the fuel budget, more
fuel gives the identical result. -/
theorem loopF_mono (N : Nat) (cb : List PEvent → PEvent → Bool) :
    ∀ (f g : Nat) (past : List PEvent) (p : PParser) (rem : List Nat),
      f ≤ g → (loopF N cb f past p rem).outcome ≠ .outOfFuel →
      loopF N cb g past p rem = loopF N cb f past p rem := by
  intro f
  induction f with
  | zero =>
    intro g past p rem _ hout
    rw [loopF_zero] at hout
    simp at hout
  | succ f ih =>
    intro g past p rem hfg hout
    obtain ⟨g', rfl⟩ : ∃ g', g = g' + 1 := ⟨g - 1, by omega⟩
    rw [loopF_succ, loopF_succ]
    rw [loopF_succ] at hout
    by_cases hre : rem.isEmpty
    · simp [hre]
    · simp only [hre, if_false] at hout ⊢
      cases hs : stepOnce N cb past p rem with
      | cont evs p' k =>
        simp only [hs] at hout ⊢
        have : (loopF N cb f (past ++ evs) p' (rem.drop k)).outcome ≠ .outOfFuel := hout
        rw [ih g' (past ++ evs) p' (rem.drop k) (by omega) this]
      | cancel evs p' k => simp [hs]
      | panic evs p' k => simp [hs]

theorem muP_lt_fuelFor (p : PParser) (d : List Nat) (hp : InvP p) :
    muP p d < fuelFor d := by
  have h1 : rankS p.state ≤ 5 := by
    unfold rankS; split <;> omega
  have h2 : p.buffer.length ≤ 45 := by
    unfold InvP at hp
    cases hst : p.state <;> rw [hst] at hp <;> simp_all <;> omega
  unfold muP fuelFor
  omega

theorem stepsTo_refl (N : Nat) (p : PParser) (rem : List Nat) :
    StepsTo N p rem [] p 0 := by
  refine ⟨Nat.zero_le _, 0, ?_⟩
  intro f past
  simp

theorem stepsTo_trans (N : Nat) (p p₁ p₂ : PParser) (rem : List Nat)
    (evs₁ evs₂ : List PEvent) (k₁ k₂ : Nat)
    (h1 : StepsTo N p rem evs₁ p₁ k₁)
    (h2 : StepsTo N p₁ (rem.drop k₁) evs₂ p₂ k₂) :
    StepsTo N p rem (evs₁ ++ evs₂) p₂ (k₁ + k₂) := by
  obtain ⟨hk1, C₁, hC₁⟩ := h1
  obtain ⟨hk2, C₂, hC₂⟩ := h2
  simp only [List.length_drop] at hk2
  refine ⟨by omega, C₁ + C₂, ?_⟩
  intro f past
  have e1 := hC₁ (f + C₂) past
  rw [show f + (C₁ + C₂) = f + C₂ + C₁ by omega, e1, hC₂ f past]
  simp only [List.drop_drop, List.append_assoc]
  congr 1
  omega

theorem stepsTo_step (N : Nat) (p : PParser) (rem : List Nat)
    (evs : List PEvent) (p' : PParser) (k : Nat)
    (hrem : rem ≠ [])
    (hs : stepOnce N cbT [] p rem = .cont evs p' k) :
    StepsTo N p rem evs p' k := by
  have hk : k ≤ rem.length := by
    have h := stepOnce_consumed_le N cbT [] p rem
    rw [hs] at h
    exact h
  refine ⟨hk, 1, ?_⟩
  intro f past
  rw [loopF_succ]
  have hre : rem.isEmpty = false := by
    cases rem with
    | nil => exact absurd rfl hrem
    | cons a l => rfl
  simp only [hre, Bool.false_eq_true, if_false]
  rw [stepOnce_cbT_past N past [], hs]
  simp only []
  rw [loopF_cbT_past N f p' (rem.drop k) (past ++ evs) past]

theorem readLeAt_append (l₁ l₂ : List Nat) (off k : Nat) (h : l₁.length ≤ off) :
    readLeAt (l₁ ++ l₂) off k = readLeAt l₂ (off - l₁.length) k := by
  unfold readLeAt
  have hd : List.drop off (l₁ ++ l₂) = List.drop (off - l₁.length) l₂ := by
    conv_lhs => rw [show off = l₁.length + (off - l₁.length) from by omega]
    rw [List.drop_append]
  rw [hd]

theorem readLeAt_le16_here (v : Nat) (l : List Nat) (hv : v < 65536) :
    readLeAt (le16 v ++ l) 0 2 = v := by
  unfold readLeAt le16 readLe
  simp only [List.cons_append, List.nil_append, List.drop_zero, List.take_succ_cons,
    List.take_zero, List.foldr_cons, List.foldr_nil]
  omega

theorem readLeAt_le32_here (v : Nat) (l : List Nat) (hv : v < 4294967296) :
    readLeAt (le32 v ++ l) 0 4 = v := by
  unfold readLeAt le32 readLe
  simp only [List.cons_append, List.nil_append, List.drop_zero, List.take_succ_cons,
    List.take_zero, List.foldr_cons, List.foldr_nil]
  omega

/-- Decoding the serialized local header (with any suffix) recovers the
entry's fields. -/
theorem localFromBytes_header30 (N : Nat) (e : ZEntry) (tail : List Nat) (h : e.WFe N) :
    localFileHeaderFromBytes (e.localHeader30 ++ tail) = some e.lfh := by
  obtain ⟨h1, h2, h3, h4, h5, h6, h7, h8, h9, h10, h11, h12, h13, h14, h15, h16⟩ := h
  unfold localFileHeaderFromBytes ZEntry.localHeader30 ZEntry.lfh
  simp only [List.append_assoc]
  rw [readLeAt_le32_here 0x04034b50 _ (by norm_num)]
  simp_all [readLeAt_append, readLeAt_le16_here, readLeAt_le32_here,
    le16_length, le32_length]

/-- Decoding the serialized central header (with any suffix) recovers the
entry's fields. -/
theorem centralFromBytes_header46 (N : Nat) (e : ZEntry) (relOff : Nat) (tail : List Nat)
    (h : e.WFe N) (hro : relOff < 4294967296) :
    centralFileHeaderFromBytes (e.centralHeader46 relOff ++ tail) = some (e.cfh relOff) := by
  obtain ⟨h1, h2, h3, h4, h5, h6, h7, h8, h9, h10, h11, h12, h13, h14, h15, h16⟩ := h
  unfold centralFileHeaderFromBytes ZEntry.centralHeader46 ZEntry.cfh
  simp only [List.append_assoc]
  rw [readLeAt_le32_here 0x02014b50 _ (by norm_num)]
  simp_all [readLeAt_append, readLeAt_le16_here, readLeAt_le32_here,
    le16_length, le32_length]

/-- Decoding the serialized EOCD (with any suffix) recovers its fields. -/
theorem eocdFromBytes (thisDisk allDisk cdSize cdOff : Nat) (tail : List Nat)
    (h1 : thisDisk < 65536) (h2 : allDisk < 65536)
    (h3 : cdSize < 4294967296) (h4 : cdOff < 4294967296) :
    centralDirEndFromBytes (eocdBytes thisDisk allDisk cdSize cdOff ++ tail) =
      some { numberOfDisk := 0, numberOfStartCentralDirectoryDisk := 0
             totalEntriesThisDisk := thisDisk, totalEntriesAllDisk := allDisk
             sizeOfTheCentralDirectory := cdSize, centralDirectoryOffset := cdOff
             zipFileCommentLength := 0 } := by
  unfold centralDirEndFromBytes eocdBytes
  simp only [List.append_assoc]
  rw [readLeAt_le32_here 0x06054b50 _ (by norm_num)]
  simp_all [readLeAt_append, readLeAt_le16_here, readLeAt_le32_here,
    le16_length, le32_length]

/-- A complete `StepsTo` segment over the whole chunk determines the result
of `feed_data` under the always-true callback. -/
theorem stepsTo_feedData (N : Nat) (p : PParser) (d : List Nat)
    (evs : List PEvent) (p' : PParser)
    (hp : InvP p) (h : StepsTo N p d evs p' d.length) (past : List PEvent) :
    feedData N p d cbT past = ⟨evs, p', d.length, .completed⟩ := by
  obtain ⟨_, C, hC⟩ := h
  have e1 := hC 1 past
  rw [List.drop_length] at e1
  have e2 : loopF N cbT 1 past p' [] = ⟨[], p', 0, .completed⟩ := by
    rw [show (1 : Nat) = 0 + 1 by rfl, loopF_succ]
    simp
  rw [e2] at e1
  simp only [List.append_nil, Nat.add_zero] at e1
  have hval : loopF N cbT (fuelFor d) past p d = ⟨evs, p', d.length, .completed⟩ := by
    have hnf : (loopF N cbT (fuelFor d) past p d).outcome ≠ .outOfFuel :=
      loopF_noFuelOut N cbT (fuelFor d) past p d hp (muP_lt_fuelFor p d hp)
    have hone : (loopF N cbT (1 + C) past p d).outcome ≠ .outOfFuel := by
      rw [e1]
      simp
    have m1 := loopF_mono N cbT (1 + C) (max (1 + C) (fuelFor d)) past p d
      (le_max_left _ _) hone
    have m2 := loopF_mono N cbT (fuelFor d) (max (1 + C) (fuelFor d)) past p d
      (le_max_right _ _) hnf
    rw [← m2, m1, e1]
  unfold feedData
  rw [hval]

/-- C7: signature decoding from a byte slice is total (never panics) and
returns `DataNotEnough` on fewer than 4 bytes, the matching record kind when
the first four little-endian bytes form one of the three known signatures,
and `InvalidSignature` otherwise. -/
theorem C7_signature_decoding (b : List Nat) :
    trySignature b =
      (if b.length < 4 then .error .dataNotEnough
       else if readLe (b.take 4) = 0x04034b50 then .ok .localFileHeader
       else if readLe (b.take 4) = 0x02014b50 then .ok .centralFileHeader
       else if readLe (b.take 4) = 0x06054b50 then .ok .centralDirEnd
       else .error .invalidSignature) := by
  simp only [trySignature, sigOfU32]

/-- C10 (frame effect of an empty feed): `feed_data` on an empty slice
performs zero loop iterations: it emits no event (hence never invokes the
callback — in this model every callback invocation is recorded as an
emitted event, including the terminal `UserCancel`), consumes zero bytes,
and returns the parser with every field unchanged. -/
theorem C10_feed_empty_is_noop (N : Nat) (p : PParser)
    (cb : List PEvent → PEvent → Bool) (past : List PEvent) :
    feedData N p [] cb past = ⟨[], p, 0, .completed⟩ := rfl

/-- C9 (refuted; the code panics): for every byte source whose stream
length is defined but smaller than 22 bytes, `SeekingParser::new` computes
`stream_len - 22` in `u64`, which underflows; with Rust's overflow checks
this is a panic (modelled as `none`), not a completed constructor call with
`number_of_files = None`. -/
theorem C9_short_stream_underflow (s : MemStream) (h : s.data.length < 22) :
    seekingParserNew s = none := by
  unfold seekingParserNew
  simp [h]

/-- Witness for `C9_short_stream_underflow` at a 3-byte stream. -/
theorem C9_short_stream_underflow_witness :
    seekingParserNew { data := [1, 2, 3], pos := 0 } = none :=
  C9_short_stream_underflow { data := [1, 2, 3], pos := 0 } (by decide)

/-- C8 (empty archive): over the 22-byte archive consisting of a single
EOCD with zero entries and no comment, `SeekingParser::new` reports
`number_of_files = Some(0)` and iteration immediately ends (no entry is
yielded), and the push parser fed those 22 bytes emits no event at all — in
particular no `LocalFileHeader`, `LocalFileData` or `LocalFileEnd`. -/
theorem C8_empty_archive :
    seekingParserNew { data := archiveBytes [], pos := 0 } =
      some ({ numberOfFiles := some 0, centralDirectoryOffset := 0, nextEntryOffset := 0 },
            { data := archiveBytes [], pos := 0 }) ∧
    seekingNext 128 { numberOfFiles := some 0, centralDirectoryOffset := 0, nextEntryOffset := 0 }
      { data := archiveBytes [], pos := 0 } = .noneN ∧
    seekingCount 128 10 { numberOfFiles := some 0, centralDirectoryOffset := 0, nextEntryOffset := 0 }
      { data := archiveBytes [], pos := 0 } = 0 ∧
    (feedData 128 pInit (archiveBytes []) cbT []).events = [] ∧
    (feedData 128 pInit (archiveBytes []) cbT []).outcome = .completed := by
  decide

/-- C4 (refuted; the code panics): feeding a local header that declares
`file_name_length = 5` with bound `N = 2`, followed by the name and payload
bytes, makes the push parser emit `LocalFileNameTooLong(0, 5)` and no
`LocalFileHeader` — but instead of skipping the name and consuming the
declared payload up to `LocalFileEnd(0)`, the `RecvLocalFileName` state
writes the name through `file_name_buffer[idx..idx+len]`, overruns the
`N`-byte buffer and panics, so `LocalFileEnd` is never emitted. -/
theorem C4_long_name_overruns_buffer :
    (feedData 2 pInit (longNameHeader ++ [65, 66, 67, 68, 69, 1, 2, 3]) cbT []).outcome
      = .panicked ∧
    (feedData 2 pInit (longNameHeader ++ [65, 66, 67, 68, 69, 1, 2, 3]) cbT []).events
      = [.parsingError 0 (.localFileNameTooLong 0 5)] := by
  decide

/-- C2 (refuted; `read_exact` breaks the contiguity invariant): on the
one-entry archive `helloArchive` whose payload is `"hello"`, two successive
`LocalFile::read_exact` calls of 2 bytes each both return `"he"` — the
cursor is advanced by the *return value* of `Read::read_exact`, which is
the constant `Ok(0)` — whereas two successive `LocalFile::read` calls
return `"he"` then `"ll"`, the contiguous bytes from the payload origin
that the claim demands of every read sequence. -/
theorem C2_read_exact_repeats_bytes :
    readExactTwiceRun = ([104, 101], [104, 101]) ∧
    readTwiceRun = ([104, 101], [108, 108]) := by
  decide

/-- C1 (first part refuted): on an EOCD whose `entries_this_disk = 1`
differs from `entries_total = 2`, `SeekingParser::new` stores
`number_of_files = Some(1)` — the `total_entries_this_disk` field — not the
`entries_total` (all-disks) field `2` that the claim names. -/
theorem C1_counterexample_this_disk_stored :
    seekingParserNew { data := eocdBytes 1 2 0 0, pos := 0 } =
      some ({ numberOfFiles := some 1, centralDirectoryOffset := 0, nextEntryOffset := 0 },
            { data := eocdBytes 1 2 0 0, pos := 0 }) ∧
    (centralDirEndFromBytes (eocdBytes 1 2 0 0)).map CentralDirEndS.totalEntriesAllDisk
      = some 2 ∧
    (some 1 : Option Nat) ≠ some 2 := by
  decide

theorem localHeader30_length (e : ZEntry) : e.localHeader30.length = 30 := by
  simp [ZEntry.localHeader30, le16_length, le32_length]

theorem stepOnce_sig (N : Nat) (p : PParser) (rem : List Nat) (sg : Sig)
    (hst : p.state = .recvHeader .headerSignature 4) (hb : p.buffer = [])
    (h4 : 4 ≤ rem.length) (hsig : trySignature (rem.take 4) = .ok sg) :
    stepOnce N cbT [] p rem =
      .cont []
        { p with
          buffer := rem.take 4
          state := match sg with
            | .localFileHeader => .recvHeader .localFileHeader 30
            | .centralFileHeader => .recvHeader .centralFileHeader 46
            | .centralDirEnd => .recvHeader .centralDirEnd 22 } 4 := by
  unfold stepOnce
  rw [hst]
  simp only [hb, List.length_nil, Nat.sub_zero, List.nil_append]
  rw [min_eq_left h4]
  have happ : appendLen 0 4 = 4 := by unfold appendLen; simp
  rw [happ]
  have hlen : (rem.take 4).length = 4 := by
    rw [List.length_take]
    omega
  rw [hlen]
  simp only [Nat.lt_irrefl, if_false]
  simp only [hsig]
  cases sg <;> rfl

theorem stepOnce_fillLocal (N : Nat) (p : PParser) (e : ZEntry) (tail : List Nat)
    (hst : p.state = .recvHeader .localFileHeader 30)
    (hb : p.buffer = e.localHeader30.take 4)
    (hwf : e.WFe N) :
    stepOnce N cbT [] p (e.localHeader30.drop 4 ++ tail) =
      .cont []
        { p with
          state := .recvLocalFileName
          fileNameIndex := 0
          fileNameLen := e.name.length
          extraFieldIndex := 0
          extraFieldLen := e.extra.length
          fileDataIndex := 0
          fileDataLen := e.payload.length
          localfileInfo := some e.info0
          buffer := ([] : List Nat) } 26 := by
  have h30 := localHeader30_length e
  have hblen : p.buffer.length = 4 := by
    rw [hb, List.length_take]
    omega
  have hremlen : (e.localHeader30.drop 4 ++ tail).length = 26 + tail.length := by
    simp [List.length_drop, h30]
  unfold stepOnce
  rw [hst]
  simp only [hblen, hremlen]
  have hmin : min (30 - 4) (26 + tail.length) = 26 := by omega
  rw [hmin]
  have happ : appendLen 4 26 = 26 := by unfold appendLen; simp
  rw [happ]
  have htake : (e.localHeader30.drop 4 ++ tail).take 26 = e.localHeader30.drop 4 := by
    rw [List.take_append_of_le_length (by simp [List.length_drop, h30])]
    apply List.take_of_length_le
    simp [List.length_drop, h30]
  rw [htake, hb, List.take_append_drop]
  have hlen2 : e.localHeader30.length < 30 ↔ False := by simp [h30]
  simp only [h30, Nat.lt_irrefl, if_false]
  have hdec := localFromBytes_header30 N e [] hwf
  rw [List.append_nil] at hdec
  simp only [hdec]
  rfl

theorem stepOnce_nameCopy (N : Nat) (p : PParser) (info : LocalFileInfoM)
    (nm tail : List Nat)
    (hst : p.state = .recvLocalFileName)
    (hinfo : p.localfileInfo = some info)
    (hidx : p.fileNameIndex = 0)
    (hlen : p.fileNameLen = nm.length)
    (hne : nm ≠ [])
    (hN : nm.length ≤ N) :
    stepOnce N cbT [] p (nm ++ tail) =
      .cont []
        { p with
          localfileInfo := some ({ info with fileNameBuffer := info.fileNameBuffer ++ nm })
          fileNameIndex := nm.length } nm.length := by
  have hnm : 1 ≤ nm.length := by
    cases nm with
    | nil => exact absurd rfl hne
    | cons a l => simp
  unfold stepOnce nameCheck2 nameCopy
  rw [hst]
  simp only [hinfo, Option.isNone_some, Bool.false_eq_true, if_false, hidx, hlen]
  rw [if_neg (by omega : ¬ nm.length > N)]
  rw [if_neg (by omega : ¬ 0 ≥ nm.length)]
  simp only [Nat.sub_zero]
  have h3 : min nm.length (nm ++ tail).length = nm.length := by
    simp [List.length_append]
  simp only [h3]
  rw [if_neg (by omega : ¬ 0 + nm.length > N)]
  rw [List.take_append_of_le_length (le_refl _), List.take_length]
  simp

theorem stepOnce_nameDone (N : Nat) (p : PParser) (info : LocalFileInfoM)
    (rem : List Nat)
    (hst : p.state = .recvLocalFileName)
    (hinfo : p.localfileInfo = some info)
    (hidx : p.fileNameIndex ≥ p.fileNameLen)
    (hN : p.fileNameLen ≤ N) :
    stepOnce N cbT [] p rem =
      .cont []
        { p with
          localfileInfo := some ({ info with fileNameLength := p.fileNameLen })
          state := .recvLocalFileExtraField } 0 := by
  unfold stepOnce nameCheck2 nameCopy
  rw [hst]
  simp only [hinfo, Option.isNone_some, Bool.false_eq_true, if_false]
  rw [if_neg (by omega : ¬ p.fileNameLen > N)]
  rw [if_pos hidx]

theorem stepOnce_extraSkip (N : Nat) (p : PParser) (ex tail : List Nat)
    (hst : p.state = .recvLocalFileExtraField)
    (hidx : p.extraFieldIndex = 0)
    (hlen : p.extraFieldLen = ex.length)
    (hne : ex ≠ []) :
    stepOnce N cbT [] p (ex ++ tail) =
      .cont [] { p with extraFieldIndex := ex.length } ex.length := by
  have hx : 1 ≤ ex.length := by
    cases ex with
    | nil => exact absurd rfl hne
    | cons a l => simp
  unfold stepOnce
  rw [hst]
  simp only [hidx, hlen]
  rw [if_neg (by omega : ¬ 0 ≥ ex.length)]
  have h3 : min (ex.length - 0) (ex ++ tail).length = ex.length := by
    simp [List.length_append]
  simp only [h3]
  simp

theorem stepOnce_extraDone (N : Nat) (p : PParser) (info : LocalFileInfoM)
    (rem : List Nat)
    (hst : p.state = .recvLocalFileExtraField)
    (hinfo : p.localfileInfo = some info)
    (hidx : p.extraFieldIndex ≥ p.extraFieldLen) :
    stepOnce N cbT [] p rem =
      .cont [.localFileHeader p.localfileIndex info]
        { p with state := ParserState.recvLocalFileData } 0 := by
  unfold stepOnce
  rw [hst]
  rw [if_pos hidx]
  simp only [hinfo]
  rfl

theorem stepOnce_dataCopy (N : Nat) (p : PParser) (pl tail : List Nat)
    (hst : p.state = .recvLocalFileData)
    (hidx : p.fileDataIndex = 0)
    (hlen : p.fileDataLen = pl.length)
    (hne : pl ≠ []) :
    stepOnce N cbT [] p (pl ++ tail) =
      .cont [.localFileData p.localfileIndex 0 pl]
        { p with fileDataIndex := pl.length } pl.length := by
  have hx : 1 ≤ pl.length := by
    cases pl with
    | nil => exact absurd rfl hne
    | cons a l => simp
  unfold stepOnce
  rw [hst]
  simp only [hidx, hlen]
  rw [if_neg (by omega : ¬ 0 ≥ pl.length)]
  have h3 : min (pl.length - 0) (pl ++ tail).length = pl.length := by
    simp [List.length_append]
  simp only [h3]
  rw [List.take_append_of_le_length (le_refl _), List.take_length]
  simp [cbT]

theorem stepOnce_dataDone (N : Nat) (p : PParser) (rem : List Nat)
    (hst : p.state = .recvLocalFileData)
    (hidx : p.fileDataIndex ≥ p.fileDataLen) :
    stepOnce N cbT [] p rem =
      .cont [.localFileEnd p.localfileIndex]
        { p with
          localfileIndex := p.localfileIndex + 1
          state := ParserState.recvHeader .headerSignature 4 } 0 := by
  unfold stepOnce
  rw [hst]
  rw [if_pos hidx]
  rfl

theorem centralHeader46_length (e : ZEntry) (relOff : Nat) :
    (e.centralHeader46 relOff).length = 46 := by
  simp [ZEntry.centralHeader46, le16_length, le32_length]

theorem eocdBytes_length (a b c d : Nat) : (eocdBytes a b c d).length = 22 := by
  simp [eocdBytes, le16_length, le32_length]

theorem stepOnce_fillCentral (N : Nat) (p : PParser) (e : ZEntry) (relOff : Nat)
    (tail : List Nat)
    (hst : p.state = .recvHeader .centralFileHeader 46)
    (hb : p.buffer = (e.centralHeader46 relOff).take 4)
    (hwf : e.WFe N) (hro : relOff < 4294967296) :
    stepOnce N cbT [] p ((e.centralHeader46 relOff).drop 4 ++ tail) =
      .cont []
        { p with
          centralFileHeaderLen := e.centralLen
          centralFileHeaderIndex := 46
          buffer := ([] : List Nat)
          state := .recvCentralFileHeader } 42 := by
  have h46 := centralHeader46_length e relOff
  have hblen : p.buffer.length = 4 := by
    rw [hb, List.length_take]
    omega
  have hremlen : ((e.centralHeader46 relOff).drop 4 ++ tail).length = 42 + tail.length := by
    simp [List.length_drop, h46]
  unfold stepOnce
  rw [hst]
  simp only [hblen, hremlen]
  have hmin : min (46 - 4) (42 + tail.length) = 42 := by omega
  rw [hmin]
  have happ : appendLen 4 42 = 42 := by unfold appendLen; simp
  rw [happ]
  have htake : ((e.centralHeader46 relOff).drop 4 ++ tail).take 42 =
      (e.centralHeader46 relOff).drop 4 := by
    rw [List.take_append_of_le_length (by simp [List.length_drop, h46])]
    apply List.take_of_length_le
    simp [List.length_drop, h46]
  rw [htake, hb, List.take_append_drop]
  simp only [h46, Nat.lt_irrefl, if_false]
  have hdec := centralFromBytes_header46 N e relOff [] hwf hro
  rw [List.append_nil] at hdec
  simp only [hdec]
  simp [CentralFileHeaderS.len, ZEntry.cfh, ZEntry.centralLen, h46]

theorem stepOnce_cfhSkip (N : Nat) (p : PParser) (s tail : List Nat)
    (hst : p.state = .recvCentralFileHeader)
    (hidx : p.centralFileHeaderIndex = 46)
    (hlen : p.centralFileHeaderLen = 46 + s.length)
    (hne : s ≠ []) :
    stepOnce N cbT [] p (s ++ tail) =
      .cont [] { p with centralFileHeaderIndex := 46 + s.length } s.length := by
  have hx : 1 ≤ s.length := by
    cases s with
    | nil => exact absurd rfl hne
    | cons a l => simp
  unfold stepOnce
  rw [hst]
  simp only [hidx, hlen]
  rw [if_neg (by omega : ¬ 46 ≥ 46 + s.length)]
  have h3 : min (46 + s.length - 46) (s ++ tail).length = s.length := by
    simp [List.length_append]
  simp only [h3]

theorem stepOnce_cfhDone (N : Nat) (p : PParser) (rem : List Nat)
    (hst : p.state = .recvCentralFileHeader)
    (hidx : p.centralFileHeaderIndex ≥ p.centralFileHeaderLen) :
    stepOnce N cbT [] p rem =
      .cont []
        { p with
          centralfileIndex := p.centralfileIndex + 1
          centralFileHeaderIndex := 0
          centralFileHeaderLen := 0
          state := ParserState.recvHeader .headerSignature 4 } 0 := by
  unfold stepOnce
  rw [hst]
  rw [if_pos hidx]

theorem stepOnce_fillEocd (N : Nat) (p : PParser)
    (thisDisk allDisk cdSize cdOff : Nat) (tail : List Nat)
    (hst : p.state = .recvHeader .centralDirEnd 22)
    (hb : p.buffer = (eocdBytes thisDisk allDisk cdSize cdOff).take 4)
    (h1 : thisDisk < 65536) (h2 : allDisk < 65536)
    (h3 : cdSize < 4294967296) (h4 : cdOff < 4294967296) :
    stepOnce N cbT [] p ((eocdBytes thisDisk allDisk cdSize cdOff).drop 4 ++ tail) =
      .cont []
        { p with
          centralDirEndLen := 22
          centralDirEndIndex := 22
          buffer := ([] : List Nat)
          state := .recvCentralDirEnd } 18 := by
  have h22 := eocdBytes_length thisDisk allDisk cdSize cdOff
  have hblen : p.buffer.length = 4 := by
    rw [hb, List.length_take]
    omega
  have hremlen : ((eocdBytes thisDisk allDisk cdSize cdOff).drop 4 ++ tail).length
      = 18 + tail.length := by
    simp [List.length_drop, h22]
  unfold stepOnce
  rw [hst]
  simp only [hblen, hremlen]
  have hmin : min (22 - 4) (18 + tail.length) = 18 := by omega
  rw [hmin]
  have happ : appendLen 4 18 = 18 := by unfold appendLen; simp
  rw [happ]
  have htake : ((eocdBytes thisDisk allDisk cdSize cdOff).drop 4 ++ tail).take 18 =
      (eocdBytes thisDisk allDisk cdSize cdOff).drop 4 := by
    rw [List.take_append_of_le_length (by simp [List.length_drop, h22])]
    apply List.take_of_length_le
    simp [List.length_drop, h22]
  rw [htake, hb, List.take_append_drop]
  simp only [h22, Nat.lt_irrefl, if_false]
  have hdec := eocdFromBytes thisDisk allDisk cdSize cdOff [] h1 h2 h3 h4
  rw [List.append_nil] at hdec
  simp only [hdec]
  simp [CentralDirEndS.len, h22]

theorem stepOnce_cdeDone (N : Nat) (p : PParser) (rem : List Nat)
    (hst : p.state = .recvCentralDirEnd)
    (hidx : p.centralDirEndIndex ≥ p.centralDirEndLen) :
    stepOnce N cbT [] p rem =
      .cont []
        { p with
          centralDirEndIndex := 0
          centralDirEndLen := 0
          state := ParserState.recvHeader .headerSignature 4 } 0 := by
  unfold stepOnce
  rw [hst]
  rw [if_pos hidx]
